import Mathlib

/-!
Verification development for the NewJobs repository (backend job crawler
and matcher).  The Python sources `backend/matcher.py`, `backend/bot.py`,
`backend/kariyer_bot.py` and `backend/main.py` are shallowly embedded
below: strings are `List Char`, scores are rationals, network fetches and
the sklearn similarity value are explicit inputs, and Python dictionaries
of job data become the `Job` structure.
-/

namespace NewJobs

/-- Strings of the Python program are modelled as lists of characters. -/
abbrev Str := List Char

/-- The characters matched by Python's regex class `\s` (ASCII range):
space, tab, newline, carriage return, vertical tab and form feed. -/
def isSpace (c : Char) : Bool :=
  c == ' ' || c == '\t' || c == '\n' || c == '\r' ||
    c == Char.ofNat 11 || c == Char.ofNat 12

/-- Negation of `isSpace`, i.e. Python's `\S`. -/
def notSpace (c : Char) : Bool := ! isSpace c

/-- ASCII lower-casing, matching `str.lower()` on the ASCII range. -/
def pyLowerChar (c : Char) : Char :=
  if 'A' ≤ c ∧ c ≤ 'Z' then Char.ofNat (c.toNat + 32) else c

/-- A character in the regex class `[a-zA-Z0-9]`. -/
def isAsciiAlnum (c : Char) : Bool :=
  ('a' ≤ c && c ≤ 'z') || ('A' ≤ c && c ≤ 'Z') || ('0' ≤ c && c ≤ '9')

/-- One character of `re.sub(r'[^a-zA-Z0-9\s]', ' ', text)`: characters
outside `[a-zA-Z0-9\s]` become a space, the rest are kept. -/
def keepAlnumChar (c : Char) : Char :=
  if isAsciiAlnum c || isSpace c then c else ' '

/-- `l` starts with the pattern `pat` (Python `str.startswith`). -/
def listStartsWith : Str → Str → Bool
  | _, [] => true
  | [], _ :: _ => false
  | a :: as, b :: bs => a == b && listStartsWith as bs

/-- Python's substring test `needle in hay`. -/
def strContains (hay needle : Str) : Bool :=
  match hay with
  | [] => needle.isEmpty
  | _ :: t => listStartsWith hay needle || strContains t needle

/-- Worker for `pySplit`: `acc` is the (reversed) token currently being
read. -/
def pySplitAux : Str → Str → List Str
  | [], acc => if acc.isEmpty then [] else [acc.reverse]
  | c :: cs, acc =>
    if isSpace c then
      if acc.isEmpty then pySplitAux cs [] else acc.reverse :: pySplitAux cs []
    else pySplitAux cs (c :: acc)

/-- Python's `str.split()` with no argument: split on runs of whitespace,
dropping empty pieces. -/
def pySplit (l : Str) : List Str := pySplitAux l []

/-- Worker for `collapseWs`: the flag records whether the previous
character belonged to a whitespace run (whose single space was already
emitted). -/
def collapseWsAux : Str → Bool → Str
  | [], _ => []
  | c :: cs, p =>
    if isSpace c then
      if p then collapseWsAux cs true else ' ' :: collapseWsAux cs true
    else c :: collapseWsAux cs false

/-- `re.sub(r'\s+', ' ', text)`: each maximal run of whitespace becomes a
single space. -/
def collapseWs (l : Str) : Str := collapseWsAux l false

/-- Python's `str.strip()`: remove leading and trailing whitespace. -/
def pyStrip (l : Str) : Str :=
  ((l.dropWhile isSpace).reverse.dropWhile isSpace).reverse

/-- The regex `http\S+` (resp. `www\S+`) matches at the head of `l`: the
literal `pat` followed by at least one non-whitespace character. -/
def patMatchAt (pat l : Str) : Bool :=
  listStartsWith l pat &&
    (match l.drop pat.length with
     | [] => false
     | c :: _ => notSpace c)

/-- The literal `"http"` of the URL-stripping regex. -/
def httpPat : Str := ['h', 't', 't', 'p']

/-- The literal `"www"` of the URL-stripping regex. -/
def wwwPat : Str := ['w', 'w', 'w']

/-- Worker for `subUrl`, scanning left to right as `re.sub` does.  When
the regex `http\S+|www\S+` matches at the current position the greedy
`\S+` makes the match extend to the end of the current non-whitespace
run, so the scanner drops characters (`skip = true`) until the next
whitespace character. -/
def subUrlAux : Str → Bool → Str
  | [], _ => []
  | c :: cs, true => if isSpace c then c :: subUrlAux cs false else subUrlAux cs true
  | c :: cs, false =>
    if patMatchAt httpPat (c :: cs) || patMatchAt wwwPat (c :: cs) then
      subUrlAux cs true
    else c :: subUrlAux cs false

/-- `re.sub(r'http\S+|www\S+', '', text)`. -/
def subUrl (l : Str) : Str := subUrlAux l false

/-- The regex `\S+@\S+` matches at the head of `l`.  With greedy matching
and backtracking this happens exactly when the maximal non-whitespace run
starting here carries an `'@'` that is neither its first nor its last
character. -/
def emailMatchAt (l : Str) : Bool :=
  (((l.takeWhile notSpace).drop 1).dropLast).any (fun d => d == '@')

/-- Worker for `subEmail`, scanning left to right as `re.sub` does; a
match of `\S+@\S+` covers the whole current non-whitespace run, which is
dropped via the `skip` flag. -/
def subEmailAux : Str → Bool → Str
  | [], _ => []
  | c :: cs, true => if isSpace c then c :: subEmailAux cs false else subEmailAux cs true
  | c :: cs, false =>
    if emailMatchAt (c :: cs) then subEmailAux cs true
    else c :: subEmailAux cs false

/-- `re.sub(r'\S+@\S+', '', text)`. -/
def subEmail (l : Str) : Str := subEmailAux l false

/-- The character-rewriting core of `JobMatcher._preprocess_text`:
lower-case, strip URL-like and email-like tokens, and replace characters
outside `[a-zA-Z0-9\s]` by spaces (whitespace collapsing excluded). -/
def normCore (t : Str) : Str :=
  (subEmail (subUrl (t.map pyLowerChar))).map keepAlnumChar

/-- `JobMatcher._preprocess_text` from `backend/matcher.py`: empty input
short-circuits, otherwise lower-case, remove URLs, remove email
addresses, replace special characters by spaces, collapse whitespace and
strip. -/
def preprocess_text (t : Str) : Str :=
  if t = [] then [] else pyStrip (collapseWs (normCore t))

/-- Round-half-to-even to an integer, the semantics of Python's builtin
`round` (on exact values; the float representation is idealised as ℚ). -/
def rhe (q : ℚ) : ℤ :=
  if q - ⌊q⌋ < 1/2 then ⌊q⌋
  else if 1/2 < q - ⌊q⌋ then ⌊q⌋ + 1
  else if ⌊q⌋ % 2 = 0 then ⌊q⌋ else ⌊q⌋ + 1

/-- Python's `round(x, 1)`. -/
def pyRound1 (q : ℚ) : ℚ := (rhe (q * 10) : ℚ) / 10

/-! ## `backend/matcher.py`: the `JobMatcher` scoring engine

The TF-IDF vectorisation and cosine similarity are computed by the
external `sklearn` library; `calculate_match_score` therefore takes the
library's result as an explicit argument `sim : Option ℚ` — `some s` is
the cosine-similarity value `cosine_similarity(...)[0][0]`, and `none`
models an exception raised inside the `try` block (e.g. sklearn's
"empty vocabulary" error when both documents hold only stop words). -/

/-- `JobMatcher.calculate_match_score`: preprocess both texts, return
`0.0` when either is empty, otherwise scale the similarity to percent,
round to one decimal and clamp into `[0, 100]`; an exception yields
`0.0`. -/
def calculate_match_score (sim : Option ℚ) (cv_text job_text : Str) : ℚ :=
  let cv_clean := preprocess_text cv_text
  let job_clean := preprocess_text job_text
  if cv_clean = [] ∨ job_clean = [] then 0
  else
    match sim with
    | none => 0
    | some s => max 0 (min 100 (pyRound1 (s * 100)))

/-- `JobMatcher.calculate_keyword_overlap`: preprocess, tokenise both
sides into sets, discard tokens of length ≤ 2, and return the percentage
of job tokens covered by the CV tokens (0 when the job-side set is
empty), capped at 100 and rounded to one decimal. -/
def calculate_keyword_overlap (cv_text job_text : Str) : ℚ :=
  let cv_clean := preprocess_text cv_text
  let job_clean := preprocess_text job_text
  if cv_clean = [] ∨ job_clean = [] then 0
  else
    let cv_words := (pySplit cv_clean).toFinset.filter (fun w => 2 < w.length)
    let job_words := (pySplit job_clean).toFinset.filter (fun w => 2 < w.length)
    if job_words = ∅ then 0
    else pyRound1 (min 100 (((cv_words ∩ job_words).card : ℚ) / job_words.card * 100))

/-- `JobMatcher.get_combined_score`: the weighted blend
`0.6 * tfidf + 0.4 * keyword`, rounded to one decimal. -/
def get_combined_score (sim : Option ℚ) (cv_text job_text : Str) : ℚ :=
  let tfidf_score := calculate_match_score sim cv_text job_text
  let keyword_score := calculate_keyword_overlap cv_text job_text
  pyRound1 (tfidf_score * (6/10) + keyword_score * (4/10))

/-! ## The `JobRecord` data model shared by both bots -/

/-- One scraped job posting, the dictionary built by
`_extract_job_data` in both `backend/bot.py` and
`backend/kariyer_bot.py`. -/
structure Job where
  title : Str
  company : Str
  link : Str
  image_url : Option Str
  description : Str
deriving DecidableEq, Repr

/-- The literal `"Unknown"`. -/
def unknownStr : Str := "Unknown".data

/-- The literal `"Şirket"` used for obfuscated companies. -/
def sirketStr : Str := "Şirket".data

/-- The unknown-link sentinel `"#"`. -/
def hashStr : Str := "#".data

/-- The literal `"/"` used in `href.startswith('/')`. -/
def slashStr : Str := "/".data

/-- LinkedIn's fixed origin used for relative links. -/
def linkedinOrigin : Str := "https://www.linkedin.com".data

/-- Kariyer.net's fixed origin used for relative links. -/
def kariyerOrigin : Str := "https://www.kariyer.net".data

/-! ## `backend/bot.py`: `LinkedInBot`

A job card is modelled by what BeautifulSoup's queries return on it:
`s1 … s4` are the inner texts found by the four title selectors
(`none` = no element matched), `h3`/`h4` the fallback headings,
`c1 … c3` the three company selectors, `href` the `href` attribute of the
first `a[href]`, and `img` the `src` and `data-delayed-url` attributes of
the first `img[src]`. -/

structure LCard where
  s1 : Option Str
  s2 : Option Str
  s3 : Option Str
  s4 : Option Str
  h3 : Option Str
  c1 : Option Str
  c2 : Option Str
  c3 : Option Str
  h4 : Option Str
  href : Option Str
  img : Option (Str × Option Str)
deriving DecidableEq

/-- The title-selector loop of `LinkedInBot._extract_job_data`: each
matched selector overwrites `title`; the loop stops early when the text
is non-empty of length > 5. -/
def titleLoop : Option Str → List (Option Str) → Option Str
  | acc, [] => acc
  | acc, none :: rest => titleLoop acc rest
  | _, some t :: rest =>
    if t ≠ [] ∧ 5 < t.length then some t else titleLoop (some t) rest

/-- The company-selector loop: each matched selector overwrites
`company`; the loop stops early when the text is non-empty. -/
def companyLoop : Str → List (Option Str) → Str
  | acc, [] => acc
  | acc, none :: rest => companyLoop acc rest
  | _, some t :: rest => if t ≠ [] then t else companyLoop t rest

/-- The title recovered by `LinkedInBot._extract_job_data`: the selector
cascade, then the plain `h3` fallback when the result is falsy
(`None` or `""`). -/
def linkedinTitleOf (card : LCard) : Str :=
  let t0 := titleLoop none [card.s1, card.s2, card.s3, card.s4]
  let tA : Str := match t0 with | some t => t | none => []
  if tA = [] then (match card.h3 with | some h => h | none => []) else tA

/-- `LinkedInBot._extract_job_data`: recover the title (discarding the
card when none is found), the company (selector cascade with `h4`
fallback from the `"Unknown"` default), resolve the link against the
LinkedIn origin, and read the image attributes.  The `description` field
starts out empty. -/
def linkedin_extract_job_data (card : LCard) : Option Job :=
  let title := linkedinTitleOf card
  if title = [] then none
  else
    let comp0 := companyLoop unknownStr [card.c1, card.c2, card.c3]
    let company :=
      if comp0 = unknownStr then (match card.h4 with | some h => h | none => comp0)
      else comp0
    let link : Str :=
      match card.href with
      | none => hashStr
      | some h =>
        if listStartsWith h slashStr then linkedinOrigin ++ h
        else if listStartsWith h httpPat then h
        else hashStr
    let image_url : Option Str :=
      match card.img with
      | none => none
      | some (src, dd) => if src ≠ [] then some src else dd
    some ⟨title, company, link, image_url, []⟩

/-- The environment of one LinkedIn crawl: `page p` is the parsed list
of job cards obtained by fetching the search page with `start = p`
(`none` = the request raised), and `desc u` is the description text
recovered by `_fetch_job_description u` (`""` = none found). -/
structure LinkedInEnv where
  page : Nat → Option (List LCard)
  desc : Str → Str

/-- The per-card body of the scraping loop in `LinkedInBot.search_jobs`:
extract, skip empty titles, substitute obfuscated (`'*'`-containing)
titles by the searched role and companies by `"Şirket"`, reject
low-quality titles (length < 3 or more than 10 spaces), reject
`(title, company)` duplicates, otherwise append. -/
def linkedinStep (role : Str) (jobs : List Job) (card : LCard) : List Job :=
  match linkedin_extract_job_data card with
  | none => jobs
  | some jd =>
    if jd.title = [] then jobs
    else
      let title := if jd.title.contains '*' then role else jd.title
      let company := if jd.company.contains '*' then sirketStr else jd.company
      let jd2 : Job := { jd with title := title, company := company }
      if title.length < 3 ∨ 10 < title.count ' ' then jobs
      else if jobs.any (fun j => j.title == title && j.company == company) then jobs
      else jobs ++ [jd2]

/-- The card loop of `LinkedInBot.search_jobs`, which breaks as soon as
the budget `max_jobs` is reached. -/
def linkedinCards (role : Str) (maxJobs : Nat) : List Job → List LCard → List Job
  | jobs, [] => jobs
  | jobs, card :: rest =>
    if maxJobs ≤ jobs.length then jobs
    else linkedinCards role maxJobs (linkedinStep role jobs card) rest

/-- `list(range(0, 200, 25))`, the page offsets fetched by
`LinkedInBot.search_jobs`. -/
def pageStarts : List Nat := [0, 25, 50, 75, 100, 125, 150, 175]

/-- A crawl outcome: the accumulated jobs plus the list of page numbers
actually fetched (used to observe that no fetch happens). -/
structure CrawlResult where
  jobs : List Job
  fetchedPages : List Nat
deriving DecidableEq, Repr

/-- The page loop of `LinkedInBot.search_jobs`: break once the budget is
reached (checked before fetching), otherwise fetch the page — a failed
request is logged and skipped — and run the card loop. -/
def linkedinPages (env : LinkedInEnv) (role : Str) (maxJobs : Nat) :
    List Nat → List Job → List Nat → CrawlResult
  | [], jobs, log => ⟨jobs, log⟩
  | p :: rest, jobs, log =>
    if maxJobs ≤ jobs.length then ⟨jobs, log⟩
    else
      match env.page p with
      | none => linkedinPages env role maxJobs rest jobs (log ++ [p])
      | some cards =>
        linkedinPages env role maxJobs rest (linkedinCards role maxJobs jobs cards)
          (log ++ [p])

/-- The description-backfill step of `LinkedInBot.search_jobs` for one
record: when the link is truthy and not `"#"`, fetch the detail page and
overwrite `description` if some text came back. -/
def backfillOne (env : LinkedInEnv) (j : Job) : Job :=
  if j.link ≠ [] ∧ j.link ≠ hashStr then
    (let d := env.desc j.link
     if d ≠ [] then { j with description := d } else j)
  else j

/-- The full result of `LinkedInBot.search_jobs`: jobs after backfill,
plus the pages and detail links fetched. -/
structure SearchOut where
  jobs : List Job
  fetchedPages : List Nat
  fetchedLinks : List Str
deriving DecidableEq, Repr

/-- `LinkedInBot.search_jobs` with its fetch log: crawl the page-offset
sequence, then backfill descriptions. -/
def linkedin_search_jobsR (env : LinkedInEnv) (role _location : Str)
    (max_jobs : Nat) : SearchOut :=
  let crawl := linkedinPages env role max_jobs pageStarts [] []
  { jobs := crawl.jobs.map (backfillOne env)
    fetchedPages := crawl.fetchedPages
    fetchedLinks :=
      (crawl.jobs.filter (fun j => j.link ≠ [] ∧ j.link ≠ hashStr)).map Job.link }

/-- The list returned by `LinkedInBot.search_jobs`. -/
def linkedin_search_jobs (env : LinkedInEnv) (role location : Str)
    (max_jobs : Nat) : List Job :=
  (linkedin_search_jobsR env role location max_jobs).jobs

/-! ## `backend/kariyer_bot.py`: `KariyerNetBot`

A Kariyer.net card is modelled by the results of the extractor's soup
queries: the title element's text, the first `a[href]`'s text and `href`
(the same element serves as title fallback and as link source), the
company element's text and the location element's text. -/

structure KCard where
  titleElem : Option Str
  aTag : Option (Str × Str)
  companyElem : Option Str
  locElem : Option Str
deriving DecidableEq

/-- The raw title recovered by `KariyerNetBot._extract_job_data`: the
title element's text, falling back to the first `a[href]`'s text when
missing or empty. -/
def kariyerTitleOf (card : KCard) : Str :=
  let tA : Str := match card.titleElem with | some t => t | none => []
  if tA = [] then (match card.aTag with | some p => p.1 | none => []) else tA

/-- `KariyerNetBot._extract_job_data`: titles that are missing, shorter
than 3 characters or obfuscated are replaced by the searched role;
missing or obfuscated companies become `"Şirket"`; the link is resolved
against the Kariyer.net origin; the location text is stored as the
initial `description`, and `image_url` is `None`. -/
def kariyer_extract_job_data (card : KCard) (search_role : Str) : Option Job :=
  let tB : Str := kariyerTitleOf card
  let title := if tB = [] ∨ tB.length < 3 ∨ tB.contains '*' then search_role else tB
  let c0 : Str := match card.companyElem with | some c => c | none => sirketStr
  let company := if c0 = [] ∨ c0.contains '*' then sirketStr else c0
  let link : Str :=
    match card.aTag with
    | none => hashStr
    | some p =>
      if listStartsWith p.2 slashStr then kariyerOrigin ++ p.2
      else if listStartsWith p.2 httpPat then p.2
      else hashStr
  let location : Str := match card.locElem with | some l => l | none => []
  some ⟨title, company, link, none, location⟩

/-- The environment of one Kariyer.net crawl: `page p` is the parsed
card list of result page `cp = p` (`none` = request failed or non-200
status). -/
structure KariyerEnv where
  page : Nat → Option (List KCard)

/-- The card loop of `KariyerNetBot.search_jobs`: budget check, extract,
dedup on `(title, company)`, append. -/
def kariyerCards (role : Str) (maxJobs : Nat) : List Job → List KCard → List Job
  | jobs, [] => jobs
  | jobs, card :: rest =>
    if maxJobs ≤ jobs.length then jobs
    else
      match kariyer_extract_job_data card role with
      | none => kariyerCards role maxJobs jobs rest
      | some jd =>
        if jobs.any (fun j => j.title == jd.title && j.company == jd.company) then
          kariyerCards role maxJobs jobs rest
        else kariyerCards role maxJobs (jobs ++ [jd]) rest

/-- `range(1, 9)`, the result pages fetched by
`KariyerNetBot.search_jobs`. -/
def kariyerPageNums : List Nat := [1, 2, 3, 4, 5, 6, 7, 8]

/-- The page loop of `KariyerNetBot.search_jobs` (no description
backfill follows it). -/
def kariyerPages (env : KariyerEnv) (role : Str) (maxJobs : Nat) :
    List Nat → List Job → List Nat → CrawlResult
  | [], jobs, log => ⟨jobs, log⟩
  | p :: rest, jobs, log =>
    if maxJobs ≤ jobs.length then ⟨jobs, log⟩
    else
      match env.page p with
      | none => kariyerPages env role maxJobs rest jobs (log ++ [p])
      | some cards =>
        kariyerPages env role maxJobs rest (kariyerCards role maxJobs jobs cards)
          (log ++ [p])

/-- `KariyerNetBot.search_jobs` with its fetch log. -/
def kariyer_search_jobsR (env : KariyerEnv) (role _location : Str)
    (max_jobs : Nat) : CrawlResult :=
  kariyerPages env role max_jobs kariyerPageNums [] []

/-- The list returned by `KariyerNetBot.search_jobs`. -/
def kariyer_search_jobs (env : KariyerEnv) (role location : Str)
    (max_jobs : Nat) : List Job :=
  (kariyer_search_jobsR env role location max_jobs).jobs

/-! ## `backend/main.py`: the ranking-only scoring variant

The per-job score computed inline in the `/search-jobs` handler
(`main.py` lines 346–371): a keyword-coverage base, a per-word
title-overlap bonus of 15, a flat description bonus of 10, capped at 100
and rounded to one decimal. -/

def variant_score (cv_keywords : List Str) (search_title : Str) (job : Job) : ℚ :=
  let job_title := job.title.map pyLowerChar
  let job_company := job.company.map pyLowerChar
  let job_desc := job.description.map pyLowerChar
  let job_text := job_title ++ [' '] ++ job_company ++ [' '] ++ job_desc
  let cv_keywords_lower := cv_keywords.map (fun k => k.map pyLowerChar)
  let keyword_matches := (cv_keywords_lower.filter (fun kw => strContains job_text kw)).length
  let keyword_score : ℚ :=
    if cv_keywords ≠ [] then (keyword_matches : ℚ) / cv_keywords.length * 100 else 0
  let role_words := pySplit (search_title.map pyLowerChar)
  let role_match_bonus : ℚ :=
    ((role_words.filter (fun w => strContains job_title w ∧ 3 < w.length)).length : ℚ) * 15
  let desc_bonus : ℚ := if job_desc ≠ [] ∧ 0 < keyword_matches then 10 else 0
  pyRound1 (min 100 (keyword_score + role_match_bonus + desc_bonus))

/-! ## Derived notions used by the statements below -/

/-- `s` is empty or starts with a whitespace character. -/
def headSpaceOrNil : Str → Bool
  | [] => true
  | c :: _ => isSpace c

/-- The token list that `calculate_keyword_overlap` derives from a raw
text: preprocess, then split. -/
def tokensOf (s : Str) : List Str := pySplit (preprocess_text s)

/-- No two records share both title and company. -/
def DistinctTC (l : List Job) : Prop :=
  l.Pairwise (fun a b => ¬(a.title = b.title ∧ a.company = b.company))

/-- The title of an accumulated record contains the masking character
only when it is the (verbatim) searched role. -/
def StarInv (role : Str) (j : Job) : Prop := '*' ∈ j.title → j.title = role

/-- Helper for `beginsWithUriScheme`: after the leading letter, scheme
characters (letters, digits, `+`, `-`, `.`) until a `':'`. -/
def schemeTail : Str → Bool
  | [] => false
  | c :: rest =>
    if c = ':' then true
    else (('a' ≤ c && c ≤ 'z') || ('A' ≤ c && c ≤ 'Z') || ('0' ≤ c && c ≤ '9') ||
      c = '+' || c = '-' || c = '.') && schemeTail rest

/-- The ranking-only variant score as claim C9 words it (no rounding):
the keyword-coverage base — the fraction of profile keywords found in
the job's combined title+company+description text, scaled to 100 — plus
a bonus of 15 for each whitespace-split word of the search role longer
than 3 characters appearing verbatim in the job's title, plus a flat
bonus of 10 when the job has a non-empty description and at least one
profile keyword appears in its combined text, clamped to 100. -/
def spec_variant_formula (cv_keywords : List Str) (search_title : Str) (job : Job) : ℚ :=
  let combined := job.title.map pyLowerChar ++ [' '] ++ job.company.map pyLowerChar ++
    [' '] ++ job.description.map pyLowerChar
  let found := ((cv_keywords.map (fun k => k.map pyLowerChar)).filter
    (fun kw => strContains combined kw)).length
  let base : ℚ := if cv_keywords ≠ [] then 100 * ((found : ℚ) / cv_keywords.length) else 0
  let titleWords := ((pySplit (search_title.map pyLowerChar)).filter
    (fun w => 3 < w.length ∧ strContains (job.title.map pyLowerChar) w)).length
  let flat : ℚ := if job.description ≠ [] ∧ 0 < found then 10 else 0
  min 100 (base + 15 * (titleWords : ℚ) + flat)

/-- Modelled from the claim's words, not from the code: the href
"already begins with a scheme" in the RFC 3986 sense — a letter followed
by letters/digits/`+`/`-`/`.` up to a `':'`.  Used only to compare the
claim's link-resolution rule with the implemented one. -/
def beginsWithUriScheme (h : Str) : Bool :=
  match h with
  | [] => false
  | c :: rest =>
    (('a' ≤ c && c ≤ 'z') || ('A' ≤ c && c ≤ 'Z')) && schemeTail rest

/-! ## Properties of the Python rounding model -/

/-- Integers are fixed points of round-half-to-even. -/
theorem rhe_intCast (n : ℤ) : rhe (n : ℚ) = n := by
  simp only [rhe, Int.floor_intCast]
  norm_num

/-- Round-half-to-even is monotone. -/
theorem rhe_mono {q r : ℚ} (h : q ≤ r) : rhe q ≤ rhe r := by
  have hf : ⌊q⌋ ≤ ⌊r⌋ := Int.floor_le_floor h
  rcases lt_or_eq_of_le hf with hlt | heq
  · have h1 : rhe q ≤ ⌊q⌋ + 1 := by unfold rhe; split_ifs <;> omega
    have h2 : ⌊r⌋ ≤ rhe r := by unfold rhe; split_ifs <;> omega
    omega
  · have hd : q - ⌊q⌋ ≤ r - ⌊r⌋ := by
      rw [← heq]; linarith
    unfold rhe
    rw [← heq]
    split_ifs <;> first | omega | (exfalso; rw [← heq] at hd; linarith)

/-- `rhe` never exceeds an integer upper bound of its argument. -/
theorem rhe_le_of_le {q : ℚ} {n : ℤ} (h : q ≤ (n : ℚ)) : rhe q ≤ n :=
  le_of_le_of_eq (rhe_mono h) (rhe_intCast n)

/-- `rhe` respects integer lower bounds of its argument. -/
theorem le_rhe_of_le {n : ℤ} {q : ℚ} (h : (n : ℚ) ≤ q) : n ≤ rhe q :=
  le_of_eq_of_le (rhe_intCast n).symm (rhe_mono h)

/-- `round(x, 1)` of a non-negative value is non-negative. -/
theorem pyRound1_nonneg {q : ℚ} (h : 0 ≤ q) : 0 ≤ pyRound1 q := by
  have h10 : (0 : ℚ) ≤ q * 10 := by linarith
  have := @le_rhe_of_le 0 (q * 10) (by exact_mod_cast h10)
  unfold pyRound1
  have hc : (0 : ℚ) ≤ (rhe (q * 10) : ℚ) := by exact_mod_cast this
  linarith

/-- `round(x, 1)` of a value at most 100 is at most 100. -/
theorem pyRound1_le_100 {q : ℚ} (h : q ≤ 100) : pyRound1 q ≤ 100 := by
  have h10 : q * 10 ≤ ((1000 : ℤ) : ℚ) := by push_cast; linarith
  have := rhe_le_of_le h10
  unfold pyRound1
  have hc : (rhe (q * 10) : ℚ) ≤ 1000 := by exact_mod_cast this
  linarith

/-- `round(x, 1)` is monotone. -/
theorem pyRound1_mono {q r : ℚ} (h : q ≤ r) : pyRound1 q ≤ pyRound1 r := by
  have := rhe_mono (show q * 10 ≤ r * 10 by linarith)
  unfold pyRound1
  have hc : (rhe (q * 10) : ℚ) ≤ (rhe (r * 10) : ℚ) := by exact_mod_cast this
  linarith

/-- `round(0, 1) = 0`. -/
theorem pyRound1_zero : pyRound1 0 = 0 := by
  have : ((0 : ℤ) : ℚ) = (0 : ℚ) * 10 := by norm_num
  unfold pyRound1
  rw [← this, rhe_intCast]
  norm_num

/-! ## Shared bound lemmas for the scoring engine -/

/-- `calculate_match_score` always lies in `[0, 100]`. -/
theorem calculate_match_score_bounds (sim : Option ℚ) (a b : Str) :
    0 ≤ calculate_match_score sim a b ∧ calculate_match_score sim a b ≤ 100 := by
  simp only [calculate_match_score]
  split_ifs with h
  · norm_num
  · match sim with
    | none => norm_num
    | some s =>
      refine ⟨le_max_left _ _, max_le (by norm_num) ?_⟩
      exact le_trans (min_le_left _ _) le_rfl

/-- `calculate_keyword_overlap` always lies in `[0, 100]`. -/
theorem calculate_keyword_overlap_bounds (a b : Str) :
    0 ≤ calculate_keyword_overlap a b ∧ calculate_keyword_overlap a b ≤ 100 := by
  simp only [calculate_keyword_overlap]
  split_ifs with h h2
  · norm_num
  · norm_num
  · constructor
    · refine pyRound1_nonneg (le_min (by norm_num) ?_)
      positivity
    · exact pyRound1_le_100 (min_le_left _ _)

/-- `get_combined_score` always lies in `[0, 100]`. -/
theorem get_combined_score_bounds (sim : Option ℚ) (a b : Str) :
    0 ≤ get_combined_score sim a b ∧ get_combined_score sim a b ≤ 100 := by
  obtain ⟨hm0, hm1⟩ := calculate_match_score_bounds sim a b
  obtain ⟨hk0, hk1⟩ := calculate_keyword_overlap_bounds a b
  simp only [get_combined_score]
  constructor
  · exact pyRound1_nonneg (by linarith)
  · exact pyRound1_le_100 (by linarith)

/-- When either side normalises to the empty string, all three scores
short-circuit to `0`. -/
theorem scores_empty (sim : Option ℚ) (a b : Str)
    (h : preprocess_text a = [] ∨ preprocess_text b = []) :
    calculate_match_score sim a b = 0 ∧ calculate_keyword_overlap a b = 0 ∧
      get_combined_score sim a b = 0 := by
  have hm : calculate_match_score sim a b = 0 := by
    simp only [calculate_match_score]
    rw [if_pos h]
  have hk : calculate_keyword_overlap a b = 0 := by
    simp only [calculate_keyword_overlap]
    rw [if_pos h]
  refine ⟨hm, hk, ?_⟩
  simp only [get_combined_score]
  rw [hm, hk]
  have : (0 : ℚ) * (6/10) + 0 * (4/10) = 0 := by norm_num
  rw [this, pyRound1_zero]

/-! ## Claim C1 -/

/-- C1: for every pair of input strings, `get_combined_score` and its two
component methods `calculate_match_score` and `calculate_keyword_overlap`
lie in `[0, 100]`; and when either input is empty or normalises to empty
after preprocessing, all of them return exactly `0.0`.  The sklearn
similarity result is universally quantified (`none` = raised
exception). -/
theorem C1_score_bounds_and_empty (sim : Option ℚ) (a b : Str) :
    (0 ≤ calculate_match_score sim a b ∧ calculate_match_score sim a b ≤ 100) ∧
    (0 ≤ calculate_keyword_overlap a b ∧ calculate_keyword_overlap a b ≤ 100) ∧
    (0 ≤ get_combined_score sim a b ∧ get_combined_score sim a b ≤ 100) ∧
    ((preprocess_text a = [] ∨ preprocess_text b = []) →
      calculate_match_score sim a b = 0 ∧ calculate_keyword_overlap a b = 0 ∧
        get_combined_score sim a b = 0) :=
  ⟨calculate_match_score_bounds sim a b, calculate_keyword_overlap_bounds a b,
    get_combined_score_bounds sim a b, scores_empty sim a b⟩

/-- Witness for C1 at the empty CV text against the job text `"job"`,
with similarity value `1/2`. -/
theorem C1_score_bounds_and_empty_witness :
    calculate_match_score (some (1/2)) [] "job".data = 0 ∧
    calculate_keyword_overlap [] "job".data = 0 ∧
    get_combined_score (some (1/2)) [] "job".data = 0 :=
  (C1_score_bounds_and_empty (some (1/2)) [] "job".data).2.2.2 (Or.inl rfl)

/-! ## Distribution of the normaliser over a whitespace boundary

These lemmas show that every stage of `_preprocess_text` treats the text
on the two sides of a whitespace character independently: the regex
matches of `http\\S+|www\\S+` and `\\S+@\\S+` never span whitespace, and
splitting ignores leading, trailing and repeated whitespace. -/

theorem takeWhile_notSpace_append (a : Str) {s : Str} (h : headSpaceOrNil s = true) :
    (a ++ s).takeWhile notSpace = a.takeWhile notSpace := by
  induction a with
  | nil =>
    cases s with
    | nil => rfl
    | cons c cs =>
      simp only [headSpaceOrNil] at h
      simp [List.takeWhile_cons, notSpace, h]
  | cons c cs ih =>
    simp only [List.cons_append, List.takeWhile_cons]
    cases hns : notSpace c <;> simp [hns, ih]

theorem dropWhile_notSpace_append (a : Str) {s : Str} (h : headSpaceOrNil s = true) :
    (a ++ s).dropWhile notSpace = a.dropWhile notSpace ++ s := by
  induction a with
  | nil =>
    cases s with
    | nil => rfl
    | cons c cs =>
      simp only [headSpaceOrNil] at h
      simp [List.dropWhile_cons, notSpace, h]
  | cons c cs ih =>
    simp only [List.cons_append, List.dropWhile_cons]
    cases hns : notSpace c <;> simp [hns, ih]

/-- A whitespace character never equals a non-whitespace one. -/
theorem beq_false_of_space_notSpace {c p : Char} (hc : isSpace c = true)
    (hp : notSpace p = true) : (c == p) = false := by
  cases hcp : (c == p) with
  | false => rfl
  | true =>
    have hcpe : c = p := eq_of_beq hcp
    subst hcpe
    rw [notSpace, hc] at hp
    simp at hp

/-- Every string starts with the empty pattern. -/
theorem listStartsWith_nil (l : Str) : listStartsWith l [] = true := by
  cases l <;> rfl

theorem listStartsWith_append (a : Str) {s pat : Str} (hpat : pat.all notSpace = true)
    (h : headSpaceOrNil s = true) :
    listStartsWith (a ++ s) pat = listStartsWith a pat := by
  induction pat generalizing a with
  | nil => rw [listStartsWith_nil, listStartsWith_nil]
  | cons p ps ih =>
    cases a with
    | nil =>
      cases s with
      | nil => rfl
      | cons c cs =>
        simp only [headSpaceOrNil] at h
        simp only [List.all_cons, Bool.and_eq_true] at hpat
        simp only [List.nil_append, listStartsWith,
          beq_false_of_space_notSpace h hpat.1, Bool.false_and]
    | cons x xs =>
      simp only [List.all_cons, Bool.and_eq_true] at hpat
      simp only [List.cons_append, listStartsWith, List.append_eq]
      rw [ih xs hpat.2]

theorem listStartsWith_length {a pat : Str} (h : listStartsWith a pat = true) :
    pat.length ≤ a.length := by
  induction pat generalizing a with
  | nil => simp
  | cons p ps ih =>
    cases a with
    | nil => simp [listStartsWith] at h
    | cons x xs =>
      simp only [listStartsWith, Bool.and_eq_true] at h
      have := ih h.2
      simp only [List.length_cons]
      omega

theorem drop_append_of_le {n : Nat} (a b : Str) (h : n ≤ a.length) :
    (a ++ b).drop n = a.drop n ++ b := by
  induction a generalizing n with
  | nil =>
    have hn : n = 0 := by simpa using h
    subst hn
    simp
  | cons x xs ih =>
    cases n with
    | zero => simp
    | succ m =>
      simp only [List.cons_append, List.drop_succ_cons]
      exact ih (by simpa using h)

theorem patMatchAt_append (pat a s : Str)
    (hpat : pat.all notSpace = true) (h : headSpaceOrNil s = true) :
    patMatchAt pat (a ++ s) = patMatchAt pat a := by
  unfold patMatchAt
  rw [listStartsWith_append a hpat h]
  cases hsw : listStartsWith a pat with
  | false => simp
  | true =>
    have hlen := listStartsWith_length hsw
    rw [drop_append_of_le a s hlen]
    cases hd : a.drop pat.length with
    | nil =>
      cases s with
      | nil => rfl
      | cons c cs =>
        simp only [headSpaceOrNil] at h
        simp [notSpace, h]
    | cons d ds => simp

theorem emailMatchAt_append (a s : Str) (h : headSpaceOrNil s = true) :
    emailMatchAt (a ++ s) = emailMatchAt a := by
  unfold emailMatchAt
  rw [takeWhile_notSpace_append a h]

theorem subUrlAux_append (a b : Str) :
    ∀ st, subUrlAux (a ++ ' ' :: b) st = subUrlAux a st ++ ' ' :: subUrlAux b false := by
  induction a with
  | nil =>
    intro st
    cases st <;>
      simp [subUrlAux, isSpace, patMatchAt, listStartsWith, httpPat, wwwPat]
  | cons c cs ih =>
    intro st
    cases st with
    | true =>
      simp only [List.cons_append, subUrlAux]
      cases hs : isSpace c <;> simp [hs, ih]
    | false =>
      simp only [List.cons_append, subUrlAux, List.append_eq]
      rw [← List.cons_append,
        patMatchAt_append httpPat (c :: cs) (' ' :: b) (by decide) rfl,
        patMatchAt_append wwwPat (c :: cs) (' ' :: b) (by decide) rfl]
      cases hm : patMatchAt httpPat (c :: cs) || patMatchAt wwwPat (c :: cs) <;>
        simp [hm, ih]

theorem subEmailAux_append (a b : Str) :
    ∀ st, subEmailAux (a ++ ' ' :: b) st = subEmailAux a st ++ ' ' :: subEmailAux b false := by
  induction a with
  | nil =>
    intro st
    cases st <;> simp [subEmailAux, isSpace, emailMatchAt, notSpace]
  | cons c cs ih =>
    intro st
    cases st with
    | true =>
      simp only [List.cons_append, subEmailAux]
      cases hs : isSpace c <;> simp [hs, ih]
    | false =>
      simp only [List.cons_append, subEmailAux, List.append_eq]
      rw [← List.cons_append, emailMatchAt_append (c :: cs) (' ' :: b) rfl]
      cases hm : emailMatchAt (c :: cs) <;> simp [hm, ih]

/-- The character-rewriting core respects a space boundary. -/
theorem normCore_append (a b : Str) :
    normCore (a ++ ' ' :: b) = normCore a ++ ' ' :: normCore b := by
  unfold normCore subUrl subEmail
  rw [List.map_append, List.map_cons,
    show pyLowerChar ' ' = ' ' from rfl,
    subUrlAux_append, subEmailAux_append, List.map_append, List.map_cons,
    show keepAlnumChar ' ' = ' ' from rfl]

/-! ## Splitting lemmas -/

theorem pySplitAux_append (a b : Str) :
    ∀ acc, pySplitAux (a ++ ' ' :: b) acc = pySplitAux a acc ++ pySplitAux b [] := by
  induction a with
  | nil =>
    intro acc
    simp only [List.nil_append, pySplitAux, show isSpace ' ' = true from rfl,
      if_true]
    cases hacc : acc.isEmpty <;> simp [hacc, pySplitAux]
  | cons c cs ih =>
    intro acc
    simp only [List.cons_append, pySplitAux]
    cases hs : isSpace c with
    | true =>
      simp only [if_true]
      cases hacc : acc.isEmpty <;> simp [hacc, ih]
    | false => simp [ih]

/-- Splitting sees through whitespace collapsing: the first component
covers the scanner in state `false`, the second in state `true` (where
the accumulated token is necessarily empty). -/
theorem pySplitAux_collapseWsAux (x : Str) :
    (∀ acc, pySplitAux (collapseWsAux x false) acc = pySplitAux x acc) ∧
      pySplitAux (collapseWsAux x true) [] = pySplitAux x [] := by
  induction x with
  | nil => exact ⟨fun acc => rfl, rfl⟩
  | cons c cs ih =>
    constructor
    · intro acc
      cases hs : isSpace c with
      | true =>
        simp only [collapseWsAux, hs, if_true, pySplitAux,
          show isSpace ' ' = true from rfl]
        cases hacc : acc.isEmpty <;> simp [hacc, ih.2]
      | false =>
        simp only [collapseWsAux, hs, Bool.false_eq_true, if_false, pySplitAux]
        simp [hs, ih.1]
    · cases hs : isSpace c with
      | true =>
        simp only [collapseWsAux, hs, if_true, pySplitAux]
        simp [hs, ih.2]
      | false =>
        simp only [collapseWsAux, hs, Bool.false_eq_true, if_false, pySplitAux]
        simp [hs, ih.1]

theorem pySplit_collapseWs (x : Str) : pySplit (collapseWs x) = pySplit x :=
  (pySplitAux_collapseWsAux x).1 []

theorem pySplitAux_dropWhile_isSpace (x : Str) :
    pySplitAux (x.dropWhile isSpace) [] = pySplitAux x [] := by
  induction x with
  | nil => rfl
  | cons c cs ih =>
    cases hs : isSpace c with
    | true => simp [List.dropWhile_cons, hs, ih, pySplitAux]
    | false => simp [List.dropWhile_cons, hs]

theorem pySplitAux_allspace {s : Str} (hs : s.all isSpace = true) :
    ∀ acc, pySplitAux s acc = if acc.isEmpty then [] else [acc.reverse] := by
  induction s with
  | nil => intro acc; rfl
  | cons c cs ih =>
    intro acc
    simp only [List.all_cons, Bool.and_eq_true] at hs
    simp only [pySplitAux, hs.1, if_true]
    cases hacc : acc.isEmpty <;> simp [hacc, ih hs.2]

theorem pySplitAux_append_allspace (x : Str) {s : Str} (hs : s.all isSpace = true) :
    ∀ acc, pySplitAux (x ++ s) acc = pySplitAux x acc := by
  induction x with
  | nil =>
    intro acc
    rw [List.nil_append, pySplitAux_allspace hs acc]
    rfl
  | cons c cs ih =>
    intro acc
    simp only [List.cons_append, pySplitAux]
    cases hsp : isSpace c with
    | true =>
      simp only [if_true]
      cases hacc : acc.isEmpty <;> simp [hacc, ih]
    | false => simp [ih]

theorem pySplit_pyStrip (x : Str) : pySplit (pyStrip x) = pySplit x := by
  unfold pySplit pyStrip
  have h1 : pySplitAux (x.dropWhile isSpace) [] = pySplitAux x [] :=
    pySplitAux_dropWhile_isSpace x
  set z := x.dropWhile isSpace with hz
  have hdec : z = (z.reverse.dropWhile isSpace).reverse ++
      (z.reverse.takeWhile isSpace).reverse := by
    conv_lhs => rw [← List.reverse_reverse z,
      ← List.takeWhile_append_dropWhile isSpace z.reverse]
    rw [List.reverse_append]
  have hsall : ((z.reverse.takeWhile isSpace).reverse).all isSpace = true := by
    rw [List.all_eq_true]
    intro c hc
    rw [List.mem_reverse] at hc
    exact List.mem_takeWhile_imp hc
  calc pySplitAux (z.reverse.dropWhile isSpace).reverse []
      = pySplitAux ((z.reverse.dropWhile isSpace).reverse ++
          (z.reverse.takeWhile isSpace).reverse) [] :=
        (pySplitAux_append_allspace _ hsall []).symm
    _ = pySplitAux z [] := by rw [← hdec]
    _ = pySplitAux x [] := h1

/-! ## Token lists of preprocessed text -/

theorem tokensOf_eq_normCore (s : Str) : tokensOf s = pySplit (normCore s) := by
  unfold tokensOf preprocess_text
  split_ifs with h
  · subst h; rfl
  · rw [pySplit_pyStrip, pySplit_collapseWs]

/-- Tokenisation distributes over joining two texts with a space: the
regex passes of `_preprocess_text` never act across whitespace. -/
theorem tokensOf_append (a b : Str) :
    tokensOf (a ++ ' ' :: b) = tokensOf a ++ tokensOf b := by
  rw [tokensOf_eq_normCore, tokensOf_eq_normCore, tokensOf_eq_normCore,
    normCore_append]
  unfold pySplit
  exact pySplitAux_append _ _ []

/-! ## Claim C8: monotonicity of the keyword overlap -/

/-- When the job-side filtered token set is empty the overlap score is 0
whatever the CV side is. -/
theorem overlap_zero_of_jobW_empty (x j : Str)
    (hw : (pySplit (preprocess_text j)).toFinset.filter (fun w => 2 < w.length) = ∅) :
    calculate_keyword_overlap x j = 0 := by
  simp only [calculate_keyword_overlap]
  split_ifs with h1
  · rfl
  · rfl

/-- The overlap score in the non-degenerate case. -/
theorem overlap_formula (x j : Str) (hx : preprocess_text x ≠ [])
    (hj : preprocess_text j ≠ [])
    (hw : (pySplit (preprocess_text j)).toFinset.filter (fun w => 2 < w.length) ≠ ∅) :
    calculate_keyword_overlap x j =
      pyRound1 (min 100
        ((((pySplit (preprocess_text x)).toFinset.filter (fun w => 2 < w.length) ∩
            (pySplit (preprocess_text j)).toFinset.filter (fun w => 2 < w.length)).card : ℚ) /
          ((pySplit (preprocess_text j)).toFinset.filter (fun w => 2 < w.length)).card * 100)) := by
  simp only [calculate_keyword_overlap]
  rw [if_neg (by tauto), if_neg hw]

/-- C8: the token-set overlap score is monotonically non-decreasing in
matching profile tokens — for every profile `p`, job text `j` and token
`t` of length > 2 lying in `j`'s filtered token set,
`calculate_keyword_overlap` applied to `p` extended with `t` (appended
after a space) is at least `calculate_keyword_overlap p j`. -/
theorem C8_overlap_monotone (p j t : Str)
    (ht : t ∈ (pySplit (preprocess_text j)).filter (fun w => 2 < w.length)) :
    calculate_keyword_overlap p j ≤ calculate_keyword_overlap (p ++ ' ' :: t) j := by
  classical
  by_cases hw : (pySplit (preprocess_text j)).toFinset.filter (fun w => 2 < w.length) = ∅
  · rw [overlap_zero_of_jobW_empty p j hw, overlap_zero_of_jobW_empty _ j hw]
  · by_cases hp : preprocess_text p = []
    · have h0 : calculate_keyword_overlap p j = 0 := by
        simp only [calculate_keyword_overlap]
        rw [if_pos (Or.inl hp)]
      rw [h0]
      exact (calculate_keyword_overlap_bounds _ _).1
    · have htok : pySplit (preprocess_text (p ++ ' ' :: t)) =
          pySplit (preprocess_text p) ++ pySplit (preprocess_text t) :=
        tokensOf_append p t
      by_cases hp' : preprocess_text (p ++ ' ' :: t) = []
      · -- then the extended profile has no tokens at all, so neither has `p`,
        -- and the unextended score is the rounded minimum of 100 and 0.
        have hnil : pySplit (preprocess_text p) = [] := by
          have : pySplit (preprocess_text (p ++ ' ' :: t)) = [] := by
            rw [hp']; rfl
          rw [htok] at this
          exact List.append_eq_nil.mp this |>.1
        have hcv : (pySplit (preprocess_text p)).toFinset.filter
            (fun w => 2 < w.length) = ∅ := by
          rw [hnil]; rfl
        rw [overlap_formula p j hp (by
          intro hj
          apply hw
          unfold pySplit at *
          rw [hj]; rfl) hw]
        rw [hcv]
        have hz : ((∅ ∩ (pySplit (preprocess_text j)).toFinset.filter
            (fun w => 2 < w.length)).card : ℚ) = 0 := by
          simp
        rw [hz]
        have : (0 : ℚ) / ((pySplit (preprocess_text j)).toFinset.filter
            (fun w => 2 < w.length)).card * 100 = 0 := by
          simp
        rw [this]
        have hmin : min (100 : ℚ) 0 = 0 := by norm_num
        rw [hmin, pyRound1_zero]
        have h0' : calculate_keyword_overlap (p ++ ' ' :: t) j = 0 := by
          simp only [calculate_keyword_overlap]
          rw [if_pos (Or.inl hp')]
        rw [h0']
      · have hj : preprocess_text j ≠ [] := by
          intro hj
          apply hw
          rw [hj]; rfl
        rw [overlap_formula p j hp hj hw, overlap_formula _ j hp' hj hw]
        have hsub : (pySplit (preprocess_text p)).toFinset.filter
              (fun w => 2 < w.length) ⊆
            (pySplit (preprocess_text (p ++ ' ' :: t))).toFinset.filter
              (fun w => 2 < w.length) := by
          apply Finset.filter_subset_filter
          rw [htok, List.toFinset_append]
          exact Finset.subset_union_left
        have hcard : (((pySplit (preprocess_text p)).toFinset.filter
              (fun w => 2 < w.length) ∩
            (pySplit (preprocess_text j)).toFinset.filter (fun w => 2 < w.length)).card : ℚ) ≤
            (((pySplit (preprocess_text (p ++ ' ' :: t))).toFinset.filter
              (fun w => 2 < w.length) ∩
            (pySplit (preprocess_text j)).toFinset.filter (fun w => 2 < w.length)).card : ℚ) := by
          exact_mod_cast Finset.card_le_card
            (Finset.inter_subset_inter hsub (Finset.Subset.refl _))
        apply pyRound1_mono
        apply min_le_min le_rfl
        have hpos : (0 : ℚ) < ((pySplit (preprocess_text j)).toFinset.filter
            (fun w => 2 < w.length)).card := by
          have := Finset.card_pos.mpr (Finset.nonempty_iff_ne_empty.mpr hw)
          exact_mod_cast this
        have hdiv := (div_le_div_iff_of_pos_right hpos).mpr hcard
        exact mul_le_mul_of_nonneg_right hdiv (by norm_num)

/-- Witness for C8: profile `"rust"`, job `"rust dev"`, token `"dev"`. -/
theorem C8_overlap_monotone_witness :
    ("dev".data ∈ (pySplit (preprocess_text "rust dev".data)).filter
      (fun w => 2 < w.length)) ∧
    calculate_keyword_overlap "rust".data "rust dev".data ≤
      calculate_keyword_overlap ("rust".data ++ ' ' :: "dev".data) "rust dev".data :=
  ⟨by decide, C8_overlap_monotone "rust".data "rust dev".data "dev".data (by decide)⟩

/-! ## Claim C2: the result budget -/

theorem linkedinStep_length (role : Str) (jobs : List Job) (card : LCard) :
    (linkedinStep role jobs card).length ≤ jobs.length + 1 := by
  unfold linkedinStep
  cases linkedin_extract_job_data card with
  | none => dsimp only; omega
  | some jd =>
    dsimp only
    split_ifs <;> simp [List.length_append]

theorem linkedinCards_length (role : Str) (m : Nat) :
    ∀ cs jobs, jobs.length ≤ m → (linkedinCards role m jobs cs).length ≤ m := by
  intro cs
  induction cs with
  | nil => intro jobs h; exact h
  | cons card rest ih =>
    intro jobs h
    unfold linkedinCards
    split_ifs with hb
    · exact h
    · have hlt : jobs.length < m := by omega
      have := linkedinStep_length role jobs card
      exact ih _ (by omega)

theorem linkedinPages_length (env : LinkedInEnv) (role : Str) (m : Nat) :
    ∀ ps jobs log, jobs.length ≤ m →
      ((linkedinPages env role m ps jobs log).jobs).length ≤ m := by
  intro ps
  induction ps with
  | nil => intro jobs log h; exact h
  | cons p rest ih =>
    intro jobs log h
    unfold linkedinPages
    split_ifs with hb
    · exact h
    · cases env.page p with
      | none => exact ih jobs _ h
      | some cards => exact ih _ _ (linkedinCards_length role m cards jobs h)

theorem kariyerCards_length (role : Str) (m : Nat) :
    ∀ cs jobs, jobs.length ≤ m → (kariyerCards role m jobs cs).length ≤ m := by
  intro cs
  induction cs with
  | nil => intro jobs h; exact h
  | cons card rest ih =>
    intro jobs h
    unfold kariyerCards
    split_ifs with hb
    · exact h
    · have hlt : jobs.length < m := by omega
      cases kariyer_extract_job_data card role with
      | none => exact ih _ h
      | some jd =>
        simp only
        split_ifs with hdup
        · exact ih _ h
        · exact ih _ (by simp [List.length_append]; omega)

theorem kariyerPages_length (env : KariyerEnv) (role : Str) (m : Nat) :
    ∀ ps jobs log, jobs.length ≤ m →
      ((kariyerPages env role m ps jobs log).jobs).length ≤ m := by
  intro ps
  induction ps with
  | nil => intro jobs log h; exact h
  | cons p rest ih =>
    intro jobs log h
    unfold kariyerPages
    split_ifs with hb
    · exact h
    · cases env.page p with
      | none => exact ih jobs _ h
      | some cards => exact ih _ _ (kariyerCards_length role m cards jobs h)

/-- C2: for every query with a positive budget, both
`LinkedInBot.search_jobs` and `KariyerNetBot.search_jobs` return at most
`max_jobs` records, whatever the fetched pages contain. -/
theorem C2_budget (envL : LinkedInEnv) (envK : KariyerEnv) (role loc : Str)
    (m : Nat) (hm : 0 < m) :
    (linkedin_search_jobs envL role loc m).length ≤ m ∧
    (kariyer_search_jobs envK role loc m).length ≤ m := by
  constructor
  · unfold linkedin_search_jobs linkedin_search_jobsR
    simp only [List.length_map]
    exact linkedinPages_length envL role m pageStarts [] [] (by simp)
  · unfold kariyer_search_jobs kariyer_search_jobsR
    exact kariyerPages_length envK role m kariyerPageNums [] [] (by simp)

/-- Witness for C2 with budget 1 and environments whose pages all fail. -/
theorem C2_budget_witness :
    (0 < 1) ∧
    (linkedin_search_jobs ⟨fun _ => none, fun _ => []⟩ "dev".data "ist".data 1).length ≤ 1 ∧
    (kariyer_search_jobs ⟨fun _ => none⟩ "dev".data "ist".data 1).length ≤ 1 :=
  ⟨Nat.one_pos,
    C2_budget ⟨fun _ => none, fun _ => []⟩ ⟨fun _ => none⟩ "dev".data "ist".data 1 Nat.one_pos⟩

/-! ## Claim C3: the dedup invariant -/

theorem backfillOne_title (env : LinkedInEnv) (j : Job) :
    (backfillOne env j).title = j.title := by
  unfold backfillOne
  dsimp only
  split_ifs <;> rfl

theorem backfillOne_company (env : LinkedInEnv) (j : Job) :
    (backfillOne env j).company = j.company := by
  unfold backfillOne
  dsimp only
  split_ifs <;> rfl

/-- Appending a record that failed the duplicate check keeps the list
pairwise-distinct on `(title, company)`. -/
theorem tc_append (jobs : List Job) (jd2 : Job) (h : DistinctTC jobs)
    (hdup : ¬(jobs.any fun j => j.title == jd2.title && j.company == jd2.company) = true) :
    DistinctTC (jobs ++ [jd2]) := by
  unfold DistinctTC
  rw [List.pairwise_append]
  refine ⟨h, List.pairwise_singleton _ _, ?_⟩
  intro a ha b hb
  simp only [List.mem_singleton] at hb
  subst hb
  rintro ⟨hT, hC⟩
  apply hdup
  rw [List.any_eq_true]
  exact ⟨a, ha, by rw [hT, hC]; simp⟩

theorem linkedinStep_distinct (role : Str) (jobs : List Job) (card : LCard)
    (h : DistinctTC jobs) : DistinctTC (linkedinStep role jobs card) := by
  unfold linkedinStep
  cases linkedin_extract_job_data card with
  | none => exact h
  | some jd =>
    dsimp only
    split_ifs <;>
      first
        | exact h
        | (apply tc_append _ _ h; assumption)

theorem linkedinCards_distinct (role : Str) (m : Nat) :
    ∀ cs jobs, DistinctTC jobs → DistinctTC (linkedinCards role m jobs cs) := by
  intro cs
  induction cs with
  | nil => intro jobs h; exact h
  | cons card rest ih =>
    intro jobs h
    unfold linkedinCards
    split_ifs with hb
    · exact h
    · exact ih _ (linkedinStep_distinct role jobs card h)

theorem linkedinPages_distinct (env : LinkedInEnv) (role : Str) (m : Nat) :
    ∀ ps jobs log, DistinctTC jobs →
      DistinctTC ((linkedinPages env role m ps jobs log).jobs) := by
  intro ps
  induction ps with
  | nil => intro jobs log h; exact h
  | cons p rest ih =>
    intro jobs log h
    unfold linkedinPages
    split_ifs with hb
    · exact h
    · cases env.page p with
      | none => exact ih jobs _ h
      | some cards => exact ih _ _ (linkedinCards_distinct role m cards jobs h)

theorem kariyerCards_distinct (role : Str) (m : Nat) :
    ∀ cs jobs, DistinctTC jobs → DistinctTC (kariyerCards role m jobs cs) := by
  intro cs
  induction cs with
  | nil => intro jobs h; exact h
  | cons card rest ih =>
    intro jobs h
    unfold kariyerCards
    split_ifs with hb
    · exact h
    · cases kariyer_extract_job_data card role with
      | none => exact ih _ h
      | some jd =>
        dsimp only
        split_ifs with hdup
        · exact ih _ h
        · exact ih _ (tc_append _ _ h hdup)

theorem kariyerPages_distinct (env : KariyerEnv) (role : Str) (m : Nat) :
    ∀ ps jobs log, DistinctTC jobs →
      DistinctTC ((kariyerPages env role m ps jobs log).jobs) := by
  intro ps
  induction ps with
  | nil => intro jobs log h; exact h
  | cons p rest ih =>
    intro jobs log h
    unfold kariyerPages
    split_ifs with hb
    · exact h
    · cases env.page p with
      | none => exact ih jobs _ h
      | some cards => exact ih _ _ (kariyerCards_distinct role m cards jobs h)

/-- C3: for every completed crawl of either bot, no two returned records
share both the title and the company. -/
theorem C3_dedup (envL : LinkedInEnv) (envK : KariyerEnv) (role loc : Str)
    (m : Nat) :
    (linkedin_search_jobs envL role loc m).Pairwise
      (fun a b => ¬(a.title = b.title ∧ a.company = b.company)) ∧
    (kariyer_search_jobs envK role loc m).Pairwise
      (fun a b => ¬(a.title = b.title ∧ a.company = b.company)) := by
  constructor
  · unfold linkedin_search_jobs linkedin_search_jobsR
    dsimp only
    have hcrawl := linkedinPages_distinct envL role m pageStarts [] []
      (List.Pairwise.nil)
    exact hcrawl.map _ (fun a b hab => by
      rw [backfillOne_title, backfillOne_title, backfillOne_company,
        backfillOne_company]
      exact hab)
  · exact kariyerPages_distinct envK role m kariyerPageNums [] []
      (List.Pairwise.nil)

/-! ## Claim C4: behaviour at `max_jobs = 0`

Neither bot defines or raises any error for a zero budget: the page loop
breaks before the first fetch and the empty list is returned as a normal
success value.  There is no `InputError` anywhere in the code — the
search functions are total and their only outcome is a list. -/

/-- Counterexample to C4 as stated: with pages full of perfectly good
cards, a `max_jobs = 0` query is *not* rejected with an error — both
bots return the plain empty list (and fetch nothing). -/
theorem C4_counterexample :
    linkedin_search_jobsR
        ⟨fun _ => some [⟨some "Software Engineer".data, none, none, none, none,
          some "Acme".data, none, none, none, none, none⟩], fun _ => []⟩
        "dev".data "ist".data 0 = ⟨[], [], []⟩ ∧
    kariyer_search_jobsR ⟨fun _ => some [⟨none, none, none, none⟩]⟩
        "dev".data "ist".data 0 = ⟨[], []⟩ :=
  ⟨rfl, rfl⟩

/-- C4 (amended): a query with `max_jobs = 0` returns the empty list
with no page fetch and no detail fetch issued, for every environment;
no error is raised (the return type has no error outcome). -/
theorem C4_zero_budget (envL : LinkedInEnv) (envK : KariyerEnv) (role loc : Str) :
    linkedin_search_jobsR envL role loc 0 = ⟨[], [], []⟩ ∧
    kariyer_search_jobsR envK role loc 0 = ⟨[], []⟩ :=
  ⟨rfl, rfl⟩

/-! ## Claim C5: non-empty titles and the discard policy -/

/-- Counterexample to C5 as stated: a Kariyer.net card from which no
title can be recovered is *not* discarded — it is emitted with the
search role as a placeholder title. -/
theorem C5_counterexample :
    kariyer_extract_job_data ⟨none, none, none, none⟩ "python developer".data =
      some ⟨"python developer".data, "Şirket".data, "#".data, none, []⟩ := by
  decide

/-- C5 (amended): `LinkedInBot._extract_job_data` emits only records
with a non-empty title and discards candidates without a recoverable
title; `KariyerNetBot._extract_job_data` never discards — a candidate
whose recovered title is missing, shorter than 3 characters or masked is
emitted with the search role as its title, which is non-empty exactly
when the search role is. -/
theorem C5_amended :
    (∀ card jd, linkedin_extract_job_data card = some jd → jd.title ≠ []) ∧
    (∀ card, linkedinTitleOf card = [] → linkedin_extract_job_data card = none) ∧
    (∀ card role, ∃ jd, kariyer_extract_job_data card role = some jd ∧
      ((kariyerTitleOf card = [] ∨ (kariyerTitleOf card).length < 3 ∨
          (kariyerTitleOf card).contains '*' = true) → jd.title = role) ∧
      (role ≠ [] → jd.title ≠ [])) := by
  refine ⟨?_, ?_, ?_⟩
  · intro card jd hjd
    unfold linkedin_extract_job_data at hjd
    by_cases ht : linkedinTitleOf card = []
    · rw [if_pos ht] at hjd
      cases hjd
    · rw [if_neg ht] at hjd
      dsimp only at hjd
      cases hjd
      exact ht
  · intro card ht
    unfold linkedin_extract_job_data
    rw [if_pos ht]
  · intro card role
    unfold kariyer_extract_job_data
    dsimp only
    refine ⟨_, rfl, ?_, ?_⟩
    · intro hcond
      dsimp only
      rw [if_pos ?_]
      rcases hcond with h | h | h
      · exact Or.inl h
      · exact Or.inr (Or.inl h)
      · exact Or.inr (Or.inr h)
    · intro hrole
      dsimp only
      split_ifs with hcond
      · exact hrole
      · push_neg at hcond
        exact hcond.1

/-! ## Claim C6: obfuscated titles -/

/-- Each record admitted by the LinkedIn card loop is either an old one
or carries the star-substituted title of the freshly extracted card. -/
theorem linkedinStep_mem (role : Str) (jobs : List Job) (card : LCard) :
    ∀ j ∈ linkedinStep role jobs card, j ∈ jobs ∨
      ∃ jd, linkedin_extract_job_data card = some jd ∧
        j.title = (if jd.title.contains '*' then role else jd.title) := by
  unfold linkedinStep
  cases hex : linkedin_extract_job_data card with
  | none => intro j hj; exact Or.inl hj
  | some jd =>
    dsimp only
    split_ifs <;>
      first
        | (intro j hj; exact Or.inl hj)
        | (intro j hj
           rcases List.mem_append.mp hj with hj2 | hj2
           · exact Or.inl hj2
           · simp only [List.mem_singleton] at hj2
             subst hj2
             right
             exact ⟨jd, rfl, by split_ifs <;> rfl⟩)

theorem linkedinStep_star (role : Str) (jobs : List Job) (card : LCard)
    (h : ∀ j ∈ jobs, StarInv role j) :
    ∀ j ∈ linkedinStep role jobs card, StarInv role j := by
  intro j hj
  rcases linkedinStep_mem role jobs card j hj with hj2 | ⟨jd, _, htitle⟩
  · exact h j hj2
  · intro hstar
    rw [htitle] at hstar ⊢
    by_cases hc : jd.title.contains '*' = true
    · rw [if_pos hc]
    · rw [if_neg hc] at hstar
      exact absurd (List.elem_eq_true_of_mem hstar) hc

theorem linkedinCards_star (role : Str) (m : Nat) :
    ∀ cs jobs, (∀ j ∈ jobs, StarInv role j) →
      ∀ j ∈ linkedinCards role m jobs cs, StarInv role j := by
  intro cs
  induction cs with
  | nil => intro jobs h; exact h
  | cons card rest ih =>
    intro jobs h
    unfold linkedinCards
    split_ifs with hb
    · exact h
    · exact ih _ (linkedinStep_star role jobs card h)

theorem linkedinPages_star (env : LinkedInEnv) (role : Str) (m : Nat) :
    ∀ ps jobs log, (∀ j ∈ jobs, StarInv role j) →
      ∀ j ∈ (linkedinPages env role m ps jobs log).jobs, StarInv role j := by
  intro ps
  induction ps with
  | nil => intro jobs log h; exact h
  | cons p rest ih =>
    intro jobs log h
    unfold linkedinPages
    split_ifs with hb
    · exact h
    · cases env.page p with
      | none => exact ih jobs _ h
      | some cards => exact ih _ _ (linkedinCards_star role m cards jobs h)

/-- Every record emitted by the Kariyer.net extractor satisfies the star
invariant: a masked recovered title is replaced by the role. -/
theorem kariyer_extract_star (card : KCard) (role : Str) (jd : Job)
    (h : kariyer_extract_job_data card role = some jd) : StarInv role jd := by
  unfold kariyer_extract_job_data at h
  dsimp only at h
  cases h
  intro hstar
  dsimp only at hstar ⊢
  by_cases hc : kariyerTitleOf card = [] ∨ (kariyerTitleOf card).length < 3 ∨
      (kariyerTitleOf card).contains '*' = true
  · rw [if_pos hc]
  · rw [if_neg hc] at hstar
    push_neg at hc
    exact absurd (List.elem_eq_true_of_mem hstar) (by simpa using hc.2.2)

theorem kariyerCards_star (role : Str) (m : Nat) :
    ∀ cs jobs, (∀ j ∈ jobs, StarInv role j) →
      ∀ j ∈ kariyerCards role m jobs cs, StarInv role j := by
  intro cs
  induction cs with
  | nil => intro jobs h; exact h
  | cons card rest ih =>
    intro jobs h
    unfold kariyerCards
    split_ifs with hb
    · exact h
    · cases hex : kariyer_extract_job_data card role with
      | none => exact ih _ h
      | some jd =>
        dsimp only
        split_ifs with hdup
        · exact ih _ h
        · refine ih _ ?_
          intro j hj
          rcases List.mem_append.mp hj with hj2 | hj2
          · exact h j hj2
          · simp only [List.mem_singleton] at hj2
            subst hj2
            exact kariyer_extract_star card role j hex

theorem kariyerPages_star (env : KariyerEnv) (role : Str) (m : Nat) :
    ∀ ps jobs log, (∀ j ∈ jobs, StarInv role j) →
      ∀ j ∈ (kariyerPages env role m ps jobs log).jobs, StarInv role j := by
  intro ps
  induction ps with
  | nil => intro jobs log h; exact h
  | cons p rest ih =>
    intro jobs log h
    unfold kariyerPages
    split_ifs with hb
    · exact h
    · cases env.page p with
      | none => exact ih jobs _ h
      | some cards => exact ih _ _ (kariyerCards_star role m cards jobs h)

/-- Counterexample to C6 as stated: when the searched role itself
carries the masking character, a candidate with a masked raw title is
returned with that role as title, so a returned title *does* contain the
masking character. -/
theorem C6_counterexample :
    linkedin_search_jobs
        ⟨fun p => if p = 0 then
            some [⟨some "Pyth** Dev**per".data, none, none, none, none,
              some "Acme".data, none, none, none, none, none⟩]
          else none, fun _ => []⟩
        "*x*".data "ist".data 5 =
      [⟨"*x*".data, "Acme".data, "#".data, none, []⟩] ∧
    '*' ∈ ("*x*".data : Str) := by
  exact ⟨by decide, by decide⟩

/-- C6 (amended): the obfuscation substitution, stated for both bots.
First the substitution clause — a candidate whose raw extracted title
contains the masking character `'*'` is returned with the query role as
its title: for LinkedIn, such a candidate passing the mask-independent
quality and duplicate filters is *appended* by the card loop with
`title = role` (never dropped and never with the marker kept); for
Kariyer.net, the extractor itself emits the record with `title = role`
and the card loop admits every extracted record that is neither over
budget nor a duplicate.  Then the consequence — a title returned by
either search contains the masking character only when it *is* the
query role (in particular, when the role is free of the masking
character no returned title contains it). -/
theorem C6_amended (envL : LinkedInEnv) (envK : KariyerEnv) (role loc : Str)
    (m : Nat) :
    (∀ jobs card jd, linkedin_extract_job_data card = some jd → '*' ∈ jd.title →
      ¬(role.length < 3 ∨ 10 < role.count ' ') →
      (jobs.any fun j => j.title == role &&
        j.company == (if jd.company.contains '*' then sirketStr else jd.company)) = false →
      linkedinStep role jobs card = jobs ++
        [{ jd with
            title := role
            company := if jd.company.contains '*' then sirketStr else jd.company }]) ∧
    (∀ card jd, kariyer_extract_job_data card role = some jd →
      '*' ∈ kariyerTitleOf card → jd.title = role) ∧
    (∀ jobs card jd, kariyer_extract_job_data card role = some jd →
      jobs.length < m →
      (jobs.any fun j => j.title == jd.title && j.company == jd.company) = false →
      kariyerCards role m jobs [card] = jobs ++ [jd]) ∧
    (∀ j ∈ linkedin_search_jobs envL role loc m, '*' ∈ j.title → j.title = role) ∧
    (∀ j ∈ kariyer_search_jobs envK role loc m, '*' ∈ j.title → j.title = role) := by
  refine ⟨?_, ?_, ?_, ?_, ?_⟩
  · intro jobs card jd hex hstar hqual hdup
    unfold linkedinStep
    rw [hex]
    dsimp only
    have hne : jd.title ≠ [] := by
      intro h
      rw [h] at hstar
      cases hstar
    rw [if_neg hne]
    have hc : jd.title.contains '*' = true := List.elem_eq_true_of_mem hstar
    rw [if_pos hc, if_neg hqual, if_neg (by rw [hdup]; simp)]
  · intro card jd hex hstar
    unfold kariyer_extract_job_data at hex
    dsimp only at hex
    cases hex
    dsimp only
    have hc : (kariyerTitleOf card).contains '*' = true :=
      List.elem_eq_true_of_mem hstar
    rw [if_pos (Or.inr (Or.inr hc))]
  · intro jobs card jd hex hlen hdup
    unfold kariyerCards
    rw [if_neg (by omega), hex]
    dsimp only
    rw [if_neg (by rw [hdup]; simp)]
    rfl
  · intro j hj
    unfold linkedin_search_jobs linkedin_search_jobsR at hj
    dsimp only at hj
    obtain ⟨j0, hj0, rfl⟩ := List.mem_map.mp hj
    have := linkedinPages_star envL role m pageStarts [] []
      (by intro j hj2; cases hj2) j0 hj0
    intro hstar
    rw [backfillOne_title] at hstar ⊢
    exact this hstar
  · intro j hj
    exact kariyerPages_star envK role m kariyerPageNums [] []
      (by intro j hj2; cases hj2) j hj

/-- Witness for C6 (amended) on concrete inputs: the card loop, given a
card whose raw title `"Pyth** Dev**per"` is masked, appends the record
with the searched role `"*x*"` as its title. -/
theorem C6_amended_witness :
    linkedinStep "*x*".data []
        ⟨some "Pyth** Dev**per".data, none, none, none, none,
          some "Acme".data, none, none, none, none, none⟩ =
      [⟨"*x*".data, "Acme".data, "#".data, none, []⟩] :=
  (C6_amended ⟨fun _ => none, fun _ => []⟩ ⟨fun _ => none⟩
      "*x*".data "ist".data 5).1
    [] ⟨some "Pyth** Dev**per".data, none, none, none, none,
      some "Acme".data, none, none, none, none, none⟩
    ⟨"Pyth** Dev**per".data, "Acme".data, "#".data, none, []⟩
    (by decide) (by decide) (by decide) (by decide)

/-! ## Claim C7: link resolution -/

/-- Counterexample to C7 as stated: `"ftp://jobs.example/1"` begins with
a scheme, yet the extractor does not pass it through — it yields the
unknown-link sentinel, because the code tests for the literal prefix
`"http"`, not for a scheme. -/
theorem C7_counterexample :
    beginsWithUriScheme "ftp://jobs.example/1".data = true ∧
    linkedin_extract_job_data
        ⟨some "Backend Engineer".data, none, none, none, none, none, none, none,
          none, some "ftp://jobs.example/1".data, none⟩ =
      some ⟨"Backend Engineer".data, "Unknown".data, "#".data, none, []⟩ ∧
    ("#".data : Str) ≠ "ftp://jobs.example/1".data := by
  exact ⟨by decide, by decide, by decide⟩

/-- C7 (amended): in both extractors, a href beginning with `'/'` is
joined onto the source's fixed origin; a href beginning with the literal
prefix `"http"` (hence every http/https URL) is passed through
unchanged; every other href — including ones carrying a different
scheme — and a missing `a[href]` element yield the sentinel `"#"`. -/
theorem C7_amended :
    (∀ card jd, linkedin_extract_job_data card = some jd →
      (card.href = none → jd.link = hashStr) ∧
      (∀ h, card.href = some h →
        (listStartsWith h slashStr = true → jd.link = linkedinOrigin ++ h) ∧
        (listStartsWith h slashStr = false → listStartsWith h httpPat = true →
          jd.link = h) ∧
        (listStartsWith h slashStr = false → listStartsWith h httpPat = false →
          jd.link = hashStr))) ∧
    (∀ card role jd, kariyer_extract_job_data card role = some jd →
      (card.aTag = none → jd.link = hashStr) ∧
      (∀ txt h, card.aTag = some (txt, h) →
        (listStartsWith h slashStr = true → jd.link = kariyerOrigin ++ h) ∧
        (listStartsWith h slashStr = false → listStartsWith h httpPat = true →
          jd.link = h) ∧
        (listStartsWith h slashStr = false → listStartsWith h httpPat = false →
          jd.link = hashStr))) := by
  constructor
  · intro card jd hjd
    unfold linkedin_extract_job_data at hjd
    by_cases ht : linkedinTitleOf card = []
    · rw [if_pos ht] at hjd; cases hjd
    · rw [if_neg ht] at hjd
      dsimp only at hjd
      cases hjd
      constructor
      · intro he
        dsimp only
        rw [he]
      · intro h he
        rw [he]
        dsimp only
        refine ⟨?_, ?_, ?_⟩
        · intro hs; rw [if_pos hs]
        · intro hs hh; rw [if_neg (by simp [hs]), if_pos hh]
        · intro hs hh; rw [if_neg (by simp [hs]), if_neg (by simp [hh])]
  · intro card role jd hjd
    unfold kariyer_extract_job_data at hjd
    dsimp only at hjd
    cases hjd
    constructor
    · intro he
      dsimp only
      rw [he]
    · intro txt h he
      rw [he]
      dsimp only
      refine ⟨?_, ?_, ?_⟩
      · intro hs; rw [if_pos hs]
      · intro hs hh; rw [if_neg (by simp [hs]), if_pos hh]
      · intro hs hh; rw [if_neg (by simp [hs]), if_neg (by simp [hh])]

/-- Witness for C7 (amended): a relative LinkedIn href is joined onto
the LinkedIn origin. -/
theorem C7_amended_witness :
    (⟨"Backend Engineer".data, "Unknown".data,
        "https://www.linkedin.com/jobs/1".data, none, []⟩ : Job).link =
      linkedinOrigin ++ "/jobs/1".data :=
  ((C7_amended.1
      ⟨some "Backend Engineer".data, none, none, none, none, none, none, none,
        none, some "/jobs/1".data, none⟩
      ⟨"Backend Engineer".data, "Unknown".data,
        "https://www.linkedin.com/jobs/1".data, none, []⟩
      (by decide)).2 "/jobs/1".data rfl).1 (by decide)

/-! ## Claim C9: the ranking-only scoring variant of `main.py` -/

/-- Counterexample to C9 as stated: with three profile keywords of which
exactly one is found, the formula of the claim gives `100/3` while the
code returns `33.3` — the code also rounds to one decimal, which the
claim omits. -/
theorem C9_counterexample :
    variant_score ["python".data, "java".data, "golang".data] "zz".data
        ⟨"python".data, "c".data, "#".data, none, []⟩ = 333/10 ∧
    spec_variant_formula ["python".data, "java".data, "golang".data] "zz".data
        ⟨"python".data, "c".data, "#".data, none, []⟩ = 100/3 ∧
    (333/10 : ℚ) ≠ 100/3 := by
  refine ⟨?_, ?_, by norm_num⟩
  · simp only [variant_score]
    norm_num
    simp +decide [pyLowerChar, pySplit, pySplitAux]
    norm_num [pyRound1, rhe]
  · simp only [spec_variant_formula]
    norm_num
    simp +decide [pyLowerChar, pySplit, pySplitAux]
    norm_num

/-- C9 (amended): the ranking-only variant score equals the claim's
formula — coverage base plus per-word title bonus plus flat description
bonus, clamped to 100 — composed with rounding to one decimal place. -/
theorem C9_amended (cv_keywords : List Str) (search_title : Str) (job : Job) :
    variant_score cv_keywords search_title job =
      pyRound1 (spec_variant_formula cv_keywords search_title job) := by
  unfold variant_score spec_variant_formula
  dsimp only
  have hfilter : List.filter
        (fun w => decide (strContains (job.title.map pyLowerChar) w = true ∧
          3 < w.length))
        (pySplit (search_title.map pyLowerChar)) =
      List.filter
        (fun w => decide (3 < w.length ∧
          strContains (job.title.map pyLowerChar) w = true))
        (pySplit (search_title.map pyLowerChar)) := by
    apply List.filter_congr
    intro w _
    simp only [decide_eq_decide]
    exact and_comm
  rw [hfilter]
  congr 1
  congr 1
  split_ifs
  all_goals try ring
  all_goals (exfalso; simp only [List.map_eq_nil_iff, ne_eq] at *; tauto)

/-! ## Claim C10: Kariyer.net descriptions come from the listing card -/

/-- Shape of every record the Kariyer.net extractor emits: no image, and
the description is exactly the location text of the card (empty when no
location element matched). -/
theorem kariyer_extract_shape (card : KCard) (role : Str) (jd : Job)
    (h : kariyer_extract_job_data card role = some jd) :
    jd.image_url = none ∧
      jd.description = (match card.locElem with | some t => t | none => []) := by
  unfold kariyer_extract_job_data at h
  dsimp only at h
  cases h
  exact ⟨rfl, rfl⟩

theorem kariyerCards_mem (role : Str) (m : Nat) :
    ∀ cs jobs j, j ∈ kariyerCards role m jobs cs →
      j ∈ jobs ∨ ∃ card, kariyer_extract_job_data card role = some j := by
  intro cs
  induction cs with
  | nil => intro jobs j hj; exact Or.inl hj
  | cons card rest ih =>
    intro jobs j hj
    unfold kariyerCards at hj
    split_ifs at hj with hb
    · exact Or.inl hj
    · cases hex : kariyer_extract_job_data card role with
      | none =>
        rw [hex] at hj
        exact ih _ _ hj
      | some jd =>
        rw [hex] at hj
        dsimp only at hj
        split_ifs at hj with hdup
        · exact ih _ _ hj
        · rcases ih _ _ hj with hj2 | hj2
          · rcases List.mem_append.mp hj2 with hj3 | hj3
            · exact Or.inl hj3
            · simp only [List.mem_singleton] at hj3
              subst hj3
              exact Or.inr ⟨card, hex⟩
          · exact Or.inr hj2

theorem kariyerPages_mem (env : KariyerEnv) (role : Str) (m : Nat) :
    ∀ ps jobs log j, j ∈ (kariyerPages env role m ps jobs log).jobs →
      j ∈ jobs ∨ ∃ card, kariyer_extract_job_data card role = some j := by
  intro ps
  induction ps with
  | nil => intro jobs log j hj; exact Or.inl hj
  | cons p rest ih =>
    intro jobs log j hj
    unfold kariyerPages at hj
    split_ifs at hj with hb
    · exact Or.inl hj
    · cases hp : env.page p with
      | none =>
        rw [hp] at hj
        exact ih _ _ _ hj
      | some cards =>
        rw [hp] at hj
        rcases ih _ _ _ hj with hj2 | hj2
        · exact kariyerCards_mem role m cards jobs j hj2
        · exact Or.inr hj2

/-- C10: `KariyerNetBot.search_jobs` never backfills descriptions —
every record it returns is literally a `_extract_job_data` output, so
its `description` equals the location text extracted from its listing
card (empty when no location element matched, never detail-page text)
and its `image_url` is `None`. -/
theorem C10_description_provenance (env : KariyerEnv) (role loc : Str) (m : Nat) :
    ∀ j ∈ kariyer_search_jobs env role loc m,
      j.image_url = none ∧
      ∃ card, kariyer_extract_job_data card role = some j ∧
        j.description = (match card.locElem with | some t => t | none => []) := by
  intro j hj
  unfold kariyer_search_jobs kariyer_search_jobsR at hj
  rcases kariyerPages_mem env role m kariyerPageNums [] [] j hj with hj2 | ⟨card, hcard⟩
  · cases hj2
  · obtain ⟨himg, hdesc⟩ := kariyer_extract_shape card role j hcard
    exact ⟨himg, card, hcard, hdesc⟩

/-- Witness for C10 on a one-card crawl. -/
theorem C10_description_provenance_witness :
    (⟨"Garson".data, "Şirket".data, "#".data, none, "İzmir".data⟩ : Job).image_url = none ∧
    ∃ card, kariyer_extract_job_data card "r".data =
        some ⟨"Garson".data, "Şirket".data, "#".data, none, "İzmir".data⟩ ∧
      (⟨"Garson".data, "Şirket".data, "#".data, none, "İzmir".data⟩ : Job).description =
        (match card.locElem with | some t => t | none => []) :=
  C10_description_provenance
    ⟨fun p => if p = 1 then some [⟨some "Garson".data, none, none, some "İzmir".data⟩]
      else none⟩
    "r".data "izm".data 10
    ⟨"Garson".data, "Şirket".data, "#".data, none, "İzmir".data⟩ (by decide)

/-- Witness for C5 (amended): a LinkedIn card with no title source at
all is discarded. -/
theorem C5_amended_witness :
    linkedin_extract_job_data
      ⟨none, none, none, none, none, none, none, none, none, none, none⟩ = none :=
  C5_amended.2.1 ⟨none, none, none, none, none, none, none, none, none, none, none⟩
    (by decide)

end NewJobs
